import Mathlib

/-!
Verification development for the smk incremental build engine
(src/smk/build.py).  The Python code is shallowly embedded: the
filesystem is a map from path strings to file metadata, child-process
behaviour (the compiler, the linker, sha256) is supplied by an explicit
environment, and each method of BuildConfig becomes a pure Lean
function over that state.  Python string primitives (str.replace,
str.split, str.strip, sorted) are modelled by structurally recursive
functions over the character list of a string so that every definition
evaluates inside the kernel.
-/

namespace Smk

/-- Models Python str.replace applied to the fixed pattern of a
backslash followed by a newline, replaced by the empty string
(left-to-right, non-overlapping), as used in parse_dependencies. -/
def dropContinuationsL : List Char → List Char
  | [] => []
  | '\\' :: '\n' :: rest => dropContinuationsL rest
  | c :: rest => c :: dropContinuationsL rest

/-- Models Python str.split with a single-character separator: splits
at every occurrence, keeping empty fields. -/
def splitOnCharL (sep : Char) : List Char → List (List Char)
  | [] => [[]]
  | c :: rest =>
    if c = sep then [] :: splitOnCharL sep rest
    else
      match splitOnCharL sep rest with
      | [] => [[c]]
      | t :: ts => (c :: t) :: ts

/-- The characters Python str.split and str.strip treat as whitespace
(ASCII subset, which is all that reaches these functions here). -/
def pyIsSpace (c : Char) : Bool :=
  c = ' ' || c = '\t' || c = '\n' || c = '\r' || c = '\x0b' || c = '\x0c'

/-- Splits a character list at every character satisfying p, keeping
empty fields. -/
def splitOnPredL (p : Char → Bool) : List Char → List (List Char)
  | [] => [[]]
  | c :: rest =>
    if p c then [] :: splitOnPredL p rest
    else
      match splitOnPredL p rest with
      | [] => [[c]]
      | t :: ts => (c :: t) :: ts

/-- Models Python str.split() with no arguments: whitespace-separated
tokens, with no empty tokens. -/
def pySplitTokens (s : String) : List String :=
  ((splitOnPredL pyIsSpace s.data).filter (fun t => t ≠ [])).map String.mk

/-- Models Python str.strip(): removes leading and trailing
whitespace. -/
def pyStrip (s : String) : String :=
  ⟨(((s.data.dropWhile pyIsSpace).reverse.dropWhile pyIsSpace)).reverse⟩

/-- Everything after the first colon of a line (the line is only used
this way when it does contain a colon); models line.split(":", 1)[1]. -/
def afterFirstColonL : List Char → List Char
  | [] => []
  | c :: rest => if c = ':' then rest else afterFirstColonL rest

/-- Models the Python test that a colon occurs in a line. -/
def lineHasColon (line : String) : Bool :=
  line.data.any (fun c => decide (c = ':'))

/-- Models str.replace for the backslash-newline pattern on strings. -/
def stripLineContinuations (content : String) : String :=
  ⟨dropContinuationsL content.data⟩

/-- Models content.split(newline). -/
def splitLines (s : String) : List String :=
  (splitOnCharL '\n' s.data).map String.mk

/-- Lexicographic comparison of character lists by code point; this is
exactly how Python compares strings. -/
def lexLe : List Char → List Char → Bool
  | [], _ => true
  | _ :: _, [] => false
  | a :: as, b :: bs =>
    if a.toNat < b.toNat then true
    else if a.toNat = b.toNat then lexLe as bs
    else false

/-- String comparison as Python performs it. -/
def strLeB (a b : String) : Bool := lexLe a.data b.data

/-- Insertion of a string into a list sorted by lexLe; together with
sortStrings this models Python sorted on a list of strings (the output
of both is the unique nondecreasing rearrangement of the input). -/
def orderedInsertS (a : String) : List String → List String
  | [] => [a]
  | b :: l => if strLeB a b then a :: b :: l else b :: orderedInsertS a l

/-- Models Python sorted on a list of strings. -/
def sortStrings : List String → List String
  | [] => []
  | a :: l => orderedInsertS a (sortStrings l)

/-- One entry of the compile database, as built in compile_file:
directory, arguments, file. -/
structure CdbEntry where
  directory : String
  arguments : List String
  file : String
deriving DecidableEq

/-- Contents of a file in the modelled filesystem.  Dependency files
and the link-hash marker are text; object files and the executable are
plain binaries; the compile database holds its entries. -/
inductive FileData where
  | text (s : String)
  | obj
  | exe
  | db (entries : List CdbEntry)
deriving DecidableEq

/-- Metadata of one file: its modification time and its contents. -/
structure FileInfo where
  mtime : Nat
  data : FileData
deriving DecidableEq

/-- The filesystem: a map from path strings to files; none means the
path does not exist. -/
def FS := String → Option FileInfo

/-- The empty filesystem. -/
def FS.empty : FS := fun _ => none

/-- Writing (creating or overwriting) one file. -/
def FS.write (fs : FS) (p : String) (i : FileInfo) : FS :=
  fun q => if q = p then some i else fs q

/-- Models os.path.exists / Path.exists. -/
def FS.existsF (fs : FS) (p : String) : Bool := (fs p).isSome

/-- Models stat().st_mtime / os.path.getmtime (0 for a missing path;
in the code the call sites only reach this after an existence check). -/
def FS.mtime (fs : FS) (p : String) : Nat :=
  match fs p with
  | some i => i.mtime
  | none => 0

/-- The text stored in a file, with non-text data reading as empty. -/
def FileData.textD : FileData → String
  | .text s => s
  | _ => ""

/-- Models open(p).read(): none when the file does not exist (the
FileNotFoundError case), otherwise the stored text. -/
def FS.readText (fs : FS) (p : String) : Option String :=
  match fs p with
  | some i => some i.data.textD
  | none => none

/-- Reading with a default, for call sites that already checked
existence. -/
def FS.readTextD (fs : FS) (p : String) : String :=
  match fs p with
  | some i => i.data.textD
  | none => ""

/-- Models Path "/" Path and os.path.join for the relative paths the
engine builds. -/
def joinPath (a b : String) : String := a ++ "/" ++ b

/-- Models pathlib name.with_suffix on a single path component: the
portion from the last dot of the name (when that dot is not the
leading character) is replaced by the new suffix; otherwise the suffix
is appended. -/
def nameWithSuffixL (name suffix : List Char) : List Char :=
  match (name.reverse).findIdx? (fun c => decide (c = '.')) with
  | some j =>
    if j + 1 < name.length then ((name.reverse).drop (j + 1)).reverse ++ suffix
    else name ++ suffix
  | none => name ++ suffix

/-- Joins character-list fragments with a separator list. -/
def joinSepL (sep : List Char) : List (List Char) → List Char
  | [] => []
  | [x] => x
  | x :: xs => x ++ sep ++ joinSepL sep xs

/-- Models Path(p).with_suffix(suffix): the suffix replacement applies
to the last path component. -/
def withSuffix (p suffix : String) : String :=
  match splitOnCharL '/' p.data with
  | [] => ⟨p.data ++ suffix.data⟩
  | parts =>
    ⟨joinSepL ['/'] (parts.dropLast ++ [nameWithSuffixL (parts.getLastD []) suffix.data])⟩

/-- Build type, from the StrEnum with auto() values. -/
inductive BuildType where
  | debug
  | release
deriving DecidableEq

/-- The StrEnum value string of a build type. -/
def BuildType.value : BuildType → String
  | .debug => "debug"
  | .release => "release"

/-- The flag set build appends for each build type. -/
def typeFlags : BuildType → List String
  | .debug => ["-O0", "-g", "-D", "DEBUG", "-Wall", "-Wextra"]
  | .release => ["-O3", "-D", "NDEBUG"]

/-- The BuildConfig dataclass fields that the build pipeline reads and
writes (console-only state is omitted). -/
structure BuildConfig where
  app_name : String
  root_dir : String
  compiler : String
  sources : List String
  cflags : List String
  libs : List String
  _build_dir : String
  build_type : BuildType
  _verbose : Bool
deriving DecidableEq

/-- The per-file compilation outcome dataclass. -/
structure CompilationResult where
  obj_path : String
  cdb_entry : CdbEntry
  success : Bool
deriving DecidableEq

/-- parse_dependencies: strip backslash-newline continuations, split
into lines, and return the whitespace-separated tokens after the first
colon of the first line containing a colon; empty list when no line
has a colon. -/
def findFirstRule : List String → List String
  | [] => []
  | line :: rest =>
    if lineHasColon line then pySplitTokens ⟨afterFirstColonL line.data⟩
    else findFirstRule rest

/-- BuildConfig.parse_dependencies (self is unused by the source
method). -/
def parse_dependencies (content : String) : List String :=
  findFirstRule (splitLines (stripLineContinuations content))

/-- The for-loop body of need_recompile over the parsed dependency
list: true at the first dependency that is missing or newer than the
object. -/
def anyStaleDep (fs : FS) (objMtime : Nat) : List String → Bool
  | [] => false
  | d :: rest =>
    if fs.existsF d = false then true
    else if objMtime < fs.mtime d then true
    else anyStaleDep fs objMtime rest

/-- BuildConfig.__need_recompile. -/
def need_recompile (fs : FS) (obj_path dep_path : String) : Bool :=
  if fs.existsF obj_path && fs.existsF dep_path then
    anyStaleDep fs (fs.mtime obj_path) (parse_dependencies (fs.readTextD dep_path))
  else true

/-- The object path computed in compile_file for one source. -/
def objPathOf (cfg : BuildConfig) (source : String) : String :=
  joinPath cfg._build_dir (withSuffix source ".o")

/-- The dependency-file path computed in compile_file for one source. -/
def depPathOf (cfg : BuildConfig) (source : String) : String :=
  joinPath cfg._build_dir (withSuffix source ".d")

/-- The app_path property: build dir joined with the app name. -/
def app_path (cfg : BuildConfig) : String :=
  joinPath cfg._build_dir cfg.app_name

/-- BuildConfig._link_hash_path. -/
def link_hash_path (cfg : BuildConfig) : String :=
  joinPath cfg._build_dir ("." ++ cfg.app_name ++ ".linkhash")

/-- BuildConfig._calc_link_hash, with the sha256-hexdigest primitive
supplied as the function h (hashlib is a collaborator outside this repository): the
command tokens are sorted, joined with spaces, and hashed. -/
def _calc_link_hash (h : String → String) (cmd : List String) : String :=
  h (String.intercalate " " (sortStrings cmd))

/-- BuildConfig.__need_relink. -/
def need_relink (h : String → String) (cfg : BuildConfig) (fs : FS)
    (obj_paths link_cmd : List String) : Bool :=
  if fs.existsF (app_path cfg) = false then true
  else
    match fs.readText (link_hash_path cfg) with
    | none => true
    | some s =>
      if pyStrip s ≠ _calc_link_hash h link_cmd then true
      else obj_paths.any (fun o => decide (fs.mtime (app_path cfg) < fs.mtime o))

/-- Behaviour of the child processes: per-source compiler
exit code, per-source captured combined stdout and stderr, the
dependency-file text the compiler emits for a source, and the linker
exit code.  A successful compiler run writes the object file and the
dependency file; a failed one is modelled as writing nothing. -/
structure CompilerEnv where
  exitCode : String → Nat
  output : String → String
  depOutput : String → String
  linkExit : Nat

/-- Externally observable build actions: the skip branch of
compile_file, a compiler invocation, a linker invocation, the link
skip branch, and the compile-database write. -/
inductive Event where
  | skipped (source : String)
  | compiled (source : String)
  | linked
  | linkSkipped
  | dbWritten
deriving DecidableEq

/-- Result of one compile_file call: the outcome record plus the state
it leaves behind and what it printed. -/
structure CompileFileOut where
  result : CompilationResult
  fs : FS
  time : Nat
  events : List Event
  log : List String

/-- The full compiler command line compile_file constructs. -/
def compileCmd (cfg : BuildConfig) (source : String) : List String :=
  [cfg.compiler] ++ cfg.cflags ++
    ["-MMD", "-MF", depPathOf cfg source, "-c", source, "-o", objPathOf cfg source]

/-- BuildConfig.compile_file.  The subprocess call is modelled through
the environment; CalledProcessError is caught in the source, so the
function always returns an outcome and never propagates a compiler
failure. -/
def compile_file (env : CompilerEnv) (cfg : BuildConfig) (fs : FS) (t : Nat)
    (source : String) : CompileFileOut :=
  let obj := objPathOf cfg source
  let dep := depPathOf cfg source
  let cmd := compileCmd cfg source
  let cdb_entry : CdbEntry := ⟨cfg.root_dir, cmd, source⟩
  if need_recompile fs obj dep = false then
    ⟨⟨obj, cdb_entry, true⟩, fs, t, [Event.skipped source],
      [obj ++ " is up to date. Skipping..."]⟩
  else if env.exitCode source = 0 then
    ⟨⟨obj, cdb_entry, true⟩,
      (fs.write dep ⟨t, .text (env.depOutput source)⟩).write obj ⟨t, .obj⟩,
      t + 1, [Event.compiled source], ["Compiling " ++ source ++ "..."]⟩
  else
    ⟨⟨obj, cdb_entry, false⟩, fs, t + 1, [Event.compiled source],
      ["Compiling " ++ source ++ "...",
       "Error compiling " ++ source ++ ":", env.output source]⟩

/-- State after gathering the per-file outcomes of a list of sources.
The worker pool is modelled by processing the sources in the order the
futures complete (a permutation of the configured sources); each
worker only touches its own object and dependency paths, so the final
filesystem does not depend on that order. -/
structure RunAllOut where
  results : List CompilationResult
  fs : FS
  time : Nat
  events : List Event

/-- Gathering loop of BuildConfig.compile: every submitted future runs
to completion (the executor drains on shutdown) and its outcome is
appended in completion order. -/
def runAll (env : CompilerEnv) (cfg : BuildConfig) (fs : FS) (t : Nat) :
    List String → RunAllOut
  | [] => ⟨[], fs, t, []⟩
  | s :: rest =>
    let o := compile_file env cfg fs t s
    let r := runAll env cfg o.fs o.time rest
    ⟨o.result :: r.results, r.fs, r.time, o.events ++ r.events⟩

/-- BuildConfig.compile: none models the raised CompilationError, hit
as soon as a gathered outcome has success false; otherwise the list of
outcomes is returned. -/
def compile (env : CompilerEnv) (cfg : BuildConfig) (fs : FS) (t : Nat)
    (order : List String) : Option RunAllOut :=
  let r := runAll env cfg fs t order
  if r.results.all (fun x => x.success) then some r else none

/-- Result of a whole build call: whether it completed without an
exception, the mutated configuration, the final filesystem, the clock
and the events. -/
structure BuildOut where
  ok : Bool
  cfg : BuildConfig
  fs : FS
  time : Nat
  events : List Event

/-- The configuration mutation at the top of BuildConfig.build:
verbose flag, build type, build-type subdirectory, and the appended
flag set. -/
def configure (cfg : BuildConfig) (verbose : Bool) (bt : BuildType) : BuildConfig :=
  { cfg with
    _verbose := verbose
    build_type := bt
    _build_dir := joinPath cfg._build_dir bt.value
    cflags := cfg.cflags ++ typeFlags bt }

/-- Tail of BuildConfig.build after a successful link step: optionally
overwrite compile_commands.json with one entry per gathered outcome. -/
def finishBuild (gen_db : Bool) (cfg2 : BuildConfig) (results : List CompilationResult)
    (fs : FS) (t : Nat) (evs : List Event) : BuildOut :=
  if gen_db then
    ⟨true, cfg2,
      fs.write "compile_commands.json" ⟨t, .db (results.map (fun x => x.cdb_entry))⟩,
      t + 1, evs ++ [Event.dbWritten]⟩
  else ⟨true, cfg2, fs, t, evs⟩

/-- BuildConfig.build: configure, compile (a raised CompilationError
aborts everything), link (the linker subprocess runs with check=True,
so a non-zero linker exit propagates and the marker is not written),
then the optional database emission. -/
def build (h : String → String) (env : CompilerEnv) (cfg : BuildConfig)
    (fs : FS) (t : Nat) (gen_db verbose : Bool) (bt : BuildType)
    (order : List String) : BuildOut :=
  let cfg2 := configure cfg verbose bt
  let r := runAll env cfg2 fs t order
  if r.results.all (fun x => x.success) = false then
    ⟨false, cfg2, r.fs, r.time, r.events⟩
  else
    let objs := r.results.map (fun x => x.obj_path)
    let link_cmd := [cfg2.compiler] ++ objs ++ cfg2.libs ++ ["-o", app_path cfg2]
    if need_relink h cfg2 r.fs objs link_cmd then
      if env.linkExit = 0 then
        finishBuild gen_db cfg2 r.results
          ((r.fs.write (app_path cfg2) ⟨r.time, .exe⟩).write (link_hash_path cfg2)
            ⟨r.time, .text (_calc_link_hash h link_cmd)⟩)
          (r.time + 1) (r.events ++ [Event.linked])
      else ⟨false, cfg2, r.fs, r.time, r.events ++ [Event.linked]⟩
    else finishBuild gen_db cfg2 r.results r.fs r.time (r.events ++ [Event.linkSkipped])

/-- A Python exception escaping a call unhandled. -/
inductive PyExc where
  | fileNotFound
deriving DecidableEq

/-- What a call to BuildConfig.run produces: the escaped exception, if
any, and the lines it printed. -/
structure RunOut where
  exc : Option PyExc
  log : List String
deriving DecidableEq

/-- BuildConfig.run is a bare subprocess.run of app_path with no
existence check and no exception handling: launching a missing
executable raises FileNotFoundError, which escapes; nothing is
printed either way. -/
def run (cfg : BuildConfig) (fs : FS) : RunOut :=
  if fs.existsF (app_path cfg) then ⟨none, []⟩ else ⟨some PyExc.fileNotFound, []⟩

/-- A fixed small configuration used to instantiate theorems on
concrete inputs. -/
def sampleCfg : BuildConfig :=
  ⟨"app", "/proj", "cc", ["m.c"], [], [], "bld", BuildType.debug, false⟩

/-- A stand-in for the sha256 hexdigest primitive in concrete
instantiations. -/
def hashStub : String → String := fun _ => "h"

/-- An environment whose compiler always fails with exit code 1. -/
def failEnv : CompilerEnv := ⟨fun _ => 1, fun _ => "boom", fun _ => "", 0⟩

/-- The filesystem of the C3 counterexample: the executable exists and
the marker stores the correct hash followed by a newline. -/
def fsC3 : FS :=
  (FS.empty.write (app_path sampleCfg) ⟨5, FileData.exe⟩).write
    (link_hash_path sampleCfg) ⟨5, FileData.text "h\n"⟩

/-- A path distinct from every output of the build: all object and
dependency paths of the given sources, the executable path, and the
link-hash marker path. -/
abbrev offOutputs (cfg2 : BuildConfig) (sources : List String) (d : String) : Prop :=
  (∀ u ∈ sources, d ≠ objPathOf cfg2 u ∧ d ≠ depPathOf cfg2 u) ∧
  d ≠ app_path cfg2 ∧ d ≠ link_hash_path cfg2

/-- An environment whose compiler always succeeds and reports one
header dependency. -/
def idemEnv : CompilerEnv := ⟨fun _ => 0, fun _ => "", fun _ => "m.o: m.c h.h", 0⟩

/-- A filesystem holding just the source and the header. -/
def idemFs : FS :=
  (FS.empty.write "m.c" ⟨1, FileData.text ""⟩).write "h.h" ⟨1, FileData.text ""⟩

/-- A whitespace-free hash stand-in. -/
def stubF : String → String := fun _ => "f"

theorem lexLe_total (as bs : List Char) : lexLe as bs = true ∨ lexLe bs as = true := by
  induction as generalizing bs with
  | nil => left; rfl
  | cons a as ih =>
    cases bs with
    | nil => right; rfl
    | cons b bs =>
      rcases Nat.lt_trichotomy a.toNat b.toNat with hlt | heq | hgt
      · left; simp [lexLe, hlt]
      · rcases ih bs with h | h
        · left; simp [lexLe, heq, h, Nat.lt_irrefl]
        · right; simp [lexLe, heq.symm, h, Nat.lt_irrefl]
      · right; simp [lexLe, hgt]

theorem lexLe_trans (as bs cs : List Char) (h1 : lexLe as bs = true)
    (h2 : lexLe bs cs = true) : lexLe as cs = true := by
  induction as generalizing bs cs with
  | nil => rfl
  | cons a as ih =>
    cases bs with
    | nil => simp [lexLe] at h1
    | cons b bs =>
      cases cs with
      | nil => simp [lexLe] at h2
      | cons c cs =>
        simp only [lexLe] at h1 h2 ⊢
        by_cases hab : a.toNat < b.toNat
        · by_cases hbc : b.toNat < c.toNat
          · simp [Nat.lt_trans hab hbc]
          · simp [hbc] at h2
            by_cases hbc2 : b.toNat = c.toNat
            · simp [hab.trans_eq hbc2]
            · simp [hbc2] at h2
        · simp [hab] at h1
          by_cases hab2 : a.toNat = b.toNat
          · simp [hab2] at h1
            by_cases hbc : b.toNat < c.toNat
            · simp [hab2 ▸ hbc]
            · simp [hbc] at h2
              have hac : a.toNat = c.toNat := hab2.trans h2.1
              simp [hac, Nat.lt_irrefl, ih bs cs h1 h2.2]
          · simp [hab2] at h1

theorem charToNat_inj {a b : Char} (h : a.toNat = b.toNat) : a = b := by
  have hv : a.val = b.val := UInt32.toNat.inj h
  exact Char.ext hv

theorem lexLe_antisymm (as bs : List Char) (h1 : lexLe as bs = true)
    (h2 : lexLe bs as = true) : as = bs := by
  induction as generalizing bs with
  | nil =>
    cases bs with
    | nil => rfl
    | cons b bs => simp [lexLe] at h2
  | cons a as ih =>
    cases bs with
    | nil => simp [lexLe] at h1
    | cons b bs =>
      simp only [lexLe] at h1 h2
      by_cases hab : a.toNat < b.toNat
      · simp [Nat.lt_asymm hab] at h2
        exact absurd h2.1.symm (Nat.ne_of_lt hab)
      · simp [hab] at h1
        by_cases hab2 : a.toNat = b.toNat
        · simp [hab2] at h1
          simp [hab2.symm, Nat.lt_irrefl] at h2
          rw [charToNat_inj hab2, ih bs h1 h2]
        · simp [hab2] at h1

theorem strLeB_total (a b : String) : strLeB a b = true ∨ strLeB b a = true :=
  lexLe_total a.data b.data

theorem strLeB_trans (a b c : String) (h1 : strLeB a b = true)
    (h2 : strLeB b c = true) : strLeB a c = true :=
  lexLe_trans a.data b.data c.data h1 h2

theorem strLeB_antisymm (a b : String) (h1 : strLeB a b = true)
    (h2 : strLeB b a = true) : a = b := by
  cases a; cases b
  exact congrArg String.mk (lexLe_antisymm _ _ h1 h2)

theorem orderedInsertS_perm (a : String) (l : List String) :
    (orderedInsertS a l).Perm (a :: l) := by
  induction l with
  | nil => exact List.Perm.refl _
  | cons b t ih =>
    by_cases h : strLeB a b
    · simp [orderedInsertS, h]
    · simp only [orderedInsertS, h, if_neg, Bool.false_eq_true, if_false]
      exact ((ih.cons b).trans (List.Perm.swap a b t))

theorem sortStrings_perm (l : List String) : (sortStrings l).Perm l := by
  induction l with
  | nil => exact List.Perm.refl _
  | cons a t ih =>
    exact (orderedInsertS_perm a (sortStrings t)).trans (ih.cons a)

theorem orderedInsertS_pairwise (a : String) (l : List String)
    (h : l.Pairwise (fun x y => strLeB x y = true)) :
    (orderedInsertS a l).Pairwise (fun x y => strLeB x y = true) := by
  induction l with
  | nil => simp [orderedInsertS]
  | cons b t ih =>
    rcases List.pairwise_cons.mp h with ⟨hb, ht⟩
    by_cases hab : strLeB a b
    · simp only [orderedInsertS, hab, if_pos]
      refine List.pairwise_cons.mpr ⟨?_, h⟩
      intro x hx
      rcases List.mem_cons.mp hx with rfl | hx
      · exact hab
      · exact strLeB_trans a b x hab (hb x hx)
    · simp only [orderedInsertS, hab, Bool.false_eq_true, if_false]
      refine List.pairwise_cons.mpr ⟨?_, ih ht⟩
      intro x hx
      have hmem := (orderedInsertS_perm a t).mem_iff.mp hx
      rcases List.mem_cons.mp hmem with rfl | hx2
      · rcases strLeB_total b x with hbx | hxb
        · exact hbx
        · exact absurd hxb hab
      · exact hb x hx2

theorem sortStrings_pairwise (l : List String) :
    (sortStrings l).Pairwise (fun x y => strLeB x y = true) := by
  induction l with
  | nil => simp [sortStrings]
  | cons a t ih => exact orderedInsertS_pairwise a (sortStrings t) ih

theorem sortStrings_eq_of_perm {l l2 : List String} (h : l.Perm l2) :
    sortStrings l = sortStrings l2 := by
  haveI : IsAntisymm String (fun x y => strLeB x y = true) :=
    ⟨fun a b h1 h2 => strLeB_antisymm a b h1 h2⟩
  exact List.eq_of_perm_of_sorted
    ((sortStrings_perm l).trans (h.trans (sortStrings_perm l2).symm))
    (sortStrings_pairwise l) (sortStrings_pairwise l2)

theorem bool_ne_true {b : Bool} (h : ¬b = true) : b = false := by
  cases b
  · rfl
  · exact absurd rfl h

theorem bool_ne_false {b : Bool} (h : ¬b = false) : b = true := by
  cases b
  · exact absurd rfl h
  · rfl

theorem anyStaleDep_iff (fs : FS) (m : Nat) (l : List String) :
    anyStaleDep fs m l = true ↔
      ∃ d ∈ l, fs.existsF d = false ∨ m < fs.mtime d := by
  induction l with
  | nil => simp [anyStaleDep]
  | cons d rest ih =>
    by_cases he : fs.existsF d = false
    · simp [anyStaleDep, he]
    · by_cases hm : m < fs.mtime d
      · simp [anyStaleDep, he, hm]
      · simp [anyStaleDep, he, hm, ih]

theorem need_recompile_iff_aux (fs : FS) (obj_path dep_path : String) :
    need_recompile fs obj_path dep_path = true ↔
      (fs.existsF obj_path = false ∨ fs.existsF dep_path = false ∨
        ∃ d ∈ parse_dependencies (fs.readTextD dep_path),
          fs.existsF d = false ∨ fs.mtime obj_path < fs.mtime d) := by
  by_cases ho : fs.existsF obj_path
  · by_cases hd : fs.existsF dep_path
    · simp [need_recompile, ho, hd, anyStaleDep_iff]
    · simp [need_recompile, ho, bool_ne_true hd]
  · simp [need_recompile, bool_ne_true ho]

/-- C1: need_recompile returns true if the object path or the
dependency-file path does not exist, and otherwise returns true
exactly when some dependency listed in the dependency file is missing
on disk or has a modification time strictly greater than that of
the object, returning false when every listed dependency exists and
none is newer than the object. -/
theorem need_recompile_spec (fs : FS) (obj_path dep_path : String) :
    need_recompile fs obj_path dep_path = true ↔
      (fs.existsF obj_path = false ∨ fs.existsF dep_path = false ∨
        ∃ d ∈ parse_dependencies (fs.readTextD dep_path),
          fs.existsF d = false ∨ fs.mtime obj_path < fs.mtime d) :=
  need_recompile_iff_aux fs obj_path dep_path

theorem findFirstRule_eq (ls : List String) :
    findFirstRule ls =
      match ls.find? lineHasColon with
      | none => []
      | some line => pySplitTokens ⟨afterFirstColonL line.data⟩ := by
  induction ls with
  | nil => rfl
  | cons l rest ih =>
    by_cases hc : lineHasColon l
    · simp [findFirstRule, hc, List.find?_cons_of_pos]
    · rw [findFirstRule, if_neg (by simp [hc]), ih,
        List.find?_cons_of_neg _ (by simp [hc])]

/-- C5: parse_dependencies removes backslash-newline continuations,
splits into lines, and returns the whitespace-separated tokens after
the first colon of the first line containing a colon, ignoring all
later lines; when no line contains a colon it returns the empty list
rather than failing. -/
theorem parse_dependencies_spec (content : String) :
    parse_dependencies content =
      match (splitLines (stripLineContinuations content)).find? lineHasColon with
      | none => []
      | some line => pySplitTokens ⟨afterFirstColonL line.data⟩ :=
  findFirstRule_eq _

/-- C6: compile_file never propagates a compiler failure: its outcome
always carries the computed object path and compile-database entry,
success is false exactly when the compiler was actually invoked and
exited non-zero (a skip or a zero exit gives success true), and on a
failure the captured combined output appears in the printed
diagnostics. -/
theorem compile_file_never_raises (env : CompilerEnv) (cfg : BuildConfig)
    (fs : FS) (t : Nat) (source : String) :
    (compile_file env cfg fs t source).result.obj_path = objPathOf cfg source ∧
    (compile_file env cfg fs t source).result.cdb_entry
        = ⟨cfg.root_dir, compileCmd cfg source, source⟩ ∧
    ((compile_file env cfg fs t source).result.success = false ↔
      (need_recompile fs (objPathOf cfg source) (depPathOf cfg source) = true ∧
        env.exitCode source ≠ 0)) ∧
    ((need_recompile fs (objPathOf cfg source) (depPathOf cfg source) = true ∧
        env.exitCode source ≠ 0) →
      env.output source ∈ (compile_file env cfg fs t source).log) := by
  by_cases hrec : need_recompile fs (objPathOf cfg source) (depPathOf cfg source) = false
  · simp [compile_file, hrec]
  · by_cases hexit : env.exitCode source = 0
    · simp [compile_file, hrec, hexit]
    · simp [compile_file, hrec, hexit, bool_ne_false hrec]

theorem compile_file_never_raises_witness :
    need_recompile FS.empty (objPathOf sampleCfg "m.c") (depPathOf sampleCfg "m.c") = true ∧
    failEnv.exitCode "m.c" ≠ 0 ∧
    (compile_file failEnv sampleCfg FS.empty 0 "m.c").result.success = false ∧
    failEnv.output "m.c" ∈ (compile_file failEnv sampleCfg FS.empty 0 "m.c").log :=
  ⟨by decide, by decide,
    ((compile_file_never_raises failEnv sampleCfg FS.empty 0 "m.c").2.2.1).mpr
      ⟨by decide, by decide⟩,
    (compile_file_never_raises failEnv sampleCfg FS.empty 0 "m.c").2.2.2
      ⟨by decide, by decide⟩⟩

/-- C8: the link-command hash is order-insensitive: permuting the
command tokens leaves _calc_link_hash unchanged, because the tokens
are sorted before being joined and hashed. -/
theorem calc_link_hash_perm (h : String → String) (cmd cmd2 : List String)
    (hp : cmd.Perm cmd2) : _calc_link_hash h cmd = _calc_link_hash h cmd2 := by
  unfold _calc_link_hash
  rw [sortStrings_eq_of_perm hp]

theorem calc_link_hash_perm_witness :
    (["b", "a", "c"].Perm ["c", "a", "b"]) ∧
    _calc_link_hash (fun s => s) ["b", "a", "c"]
      = _calc_link_hash (fun s => s) ["c", "a", "b"] :=
  ⟨by decide, calc_link_hash_perm (fun s => s) _ _ (by decide)⟩

theorem need_relink_iff_aux (h : String → String) (cfg : BuildConfig) (fs : FS)
    (obj_paths link_cmd : List String) :
    need_relink h cfg fs obj_paths link_cmd = true ↔
      (fs.existsF (app_path cfg) = false ∨
       fs.readText (link_hash_path cfg) = none ∨
       (∃ s, fs.readText (link_hash_path cfg) = some s ∧
          pyStrip s ≠ _calc_link_hash h link_cmd) ∨
       ∃ o ∈ obj_paths, fs.mtime (app_path cfg) < fs.mtime o) := by
  by_cases ha : fs.existsF (app_path cfg) = false
  · simp [need_relink, ha]
  · rcases hr : fs.readText (link_hash_path cfg) with _ | s
    · simp [need_relink, ha, hr]
    · by_cases hs : pyStrip s = _calc_link_hash h link_cmd
      · simp [need_relink, ha, hr, hs, List.any_eq_true]
      · simp [need_relink, ha, hr, hs]

/-- C3 counterexample: the executable exists, the stored marker
content (hash followed by a newline) differs from the hash of the
current link command, and no object is newer, yet need_relink returns
false — the code strips the stored content before comparing, so the
condition the claim places on the raw stored content does not match
the code. -/
theorem need_relink_content_counterexample :
    need_relink hashStub sampleCfg fsC3 [] ["cc"] = false ∧
    fsC3.readText (link_hash_path sampleCfg) = some "h\n" ∧
    "h\n" ≠ _calc_link_hash hashStub ["cc"] ∧
    fsC3.existsF (app_path sampleCfg) = true := by decide

/-- C3 amended: need_relink returns true exactly when the executable
does not exist, or the marker file does not exist, or the stored
marker content, after stripping surrounding whitespace, differs from
the hash of the current link command, or the modification time of
some object path exceeds that of the executable; otherwise it returns
false. -/
theorem need_relink_spec (h : String → String) (cfg : BuildConfig) (fs : FS)
    (obj_paths link_cmd : List String) :
    need_relink h cfg fs obj_paths link_cmd = true ↔
      (fs.existsF (app_path cfg) = false ∨
       fs.readText (link_hash_path cfg) = none ∨
       (∃ s, fs.readText (link_hash_path cfg) = some s ∧
          pyStrip s ≠ _calc_link_hash h link_cmd) ∨
       ∃ o ∈ obj_paths, fs.mtime (app_path cfg) < fs.mtime o) :=
  need_relink_iff_aux h cfg fs obj_paths link_cmd

/-- C9 counterexample: invoking run with no executable artifact lets a
FileNotFoundError escape unhandled and reports nothing, contradicting
the claim that the error is reported and non-fatal. -/
theorem run_missing_counterexample :
    run sampleCfg FS.empty = ⟨some PyExc.fileNotFound, []⟩ := by decide

/-- C9 amended: invoking run when the executable artifact does not
exist raises an uncaught FileNotFoundError from the process launch
(the run cannot proceed), and no missing-artifact report is printed. -/
theorem run_missing_raises (cfg : BuildConfig) (fs : FS)
    (habs : fs.existsF (app_path cfg) = false) :
    run cfg fs = ⟨some PyExc.fileNotFound, []⟩ := by
  unfold run
  simp [habs]

theorem run_missing_raises_witness :
    FS.empty.existsF (app_path sampleCfg) = false ∧
    run sampleCfg FS.empty = ⟨some PyExc.fileNotFound, []⟩ :=
  ⟨by decide, run_missing_raises sampleCfg FS.empty (by decide)⟩

theorem build_cfg_eq (h : String → String) (env : CompilerEnv) (cfg : BuildConfig)
    (fs : FS) (t : Nat) (gen_db verbose : Bool) (bt : BuildType)
    (order : List String) :
    (build h env cfg fs t gen_db verbose bt order).cfg = configure cfg verbose bt := by
  unfold build finishBuild
  dsimp only
  split
  · rfl
  · split
    · split
      · split
        · rfl
        · rfl
      · rfl
    · split
      · rfl
      · rfl

/-- C10: build permanently mutates its configuration: it replaces
cflags with cflags extended by the build-type flag set (Debug adds
-O0 -g -D DEBUG -Wall -Wextra, Release adds -O3 -D NDEBUG) and
replaces the build directory with its build-type subdirectory, so a
second build call on the returned configuration compounds the flags
and nests the build directory one level deeper. -/
theorem build_mutates_config (h : String → String) (env : CompilerEnv)
    (cfg : BuildConfig) (fs : FS) (t : Nat) (gen_db verbose : Bool)
    (bt : BuildType) (order : List String) :
    ((build h env cfg fs t gen_db verbose bt order).cfg.cflags
        = cfg.cflags ++ typeFlags bt) ∧
    ((build h env cfg fs t gen_db verbose bt order).cfg._build_dir
        = joinPath cfg._build_dir bt.value) ∧
    typeFlags BuildType.debug = ["-O0", "-g", "-D", "DEBUG", "-Wall", "-Wextra"] ∧
    typeFlags BuildType.release = ["-O3", "-D", "NDEBUG"] ∧
    (∀ fs1 t1 order1,
      ((build h env (build h env cfg fs t gen_db verbose bt order).cfg
          fs1 t1 gen_db verbose bt order1).cfg.cflags
        = (cfg.cflags ++ typeFlags bt) ++ typeFlags bt) ∧
      ((build h env (build h env cfg fs t gen_db verbose bt order).cfg
          fs1 t1 gen_db verbose bt order1).cfg._build_dir
        = joinPath (joinPath cfg._build_dir bt.value) bt.value)) := by
  refine ⟨?_, ?_, rfl, rfl, ?_⟩
  · rw [build_cfg_eq]; rfl
  · rw [build_cfg_eq]; rfl
  · intro fs1 t1 order1
    constructor
    · rw [build_cfg_eq, build_cfg_eq]; rfl
    · rw [build_cfg_eq, build_cfg_eq]; rfl

theorem FS.write_self (fs : FS) (p : String) (i : FileInfo) :
    (fs.write p i) p = some i := by
  simp [FS.write]

theorem FS.write_other (fs : FS) (p : String) (i : FileInfo) (q : String)
    (h : q ≠ p) : (fs.write p i) q = fs q := by
  simp [FS.write, h]

theorem compile_file_result_shape (env : CompilerEnv) (cfg : BuildConfig)
    (fs : FS) (t : Nat) (s : String) :
    (compile_file env cfg fs t s).result.obj_path = objPathOf cfg s ∧
    (compile_file env cfg fs t s).result.cdb_entry
      = ⟨cfg.root_dir, compileCmd cfg s, s⟩ := by
  unfold compile_file
  dsimp only
  split
  · exact ⟨rfl, rfl⟩
  · split
    · exact ⟨rfl, rfl⟩
    · exact ⟨rfl, rfl⟩

theorem compile_file_fs_frame (env : CompilerEnv) (cfg : BuildConfig)
    (fs : FS) (t : Nat) (s : String) (p : String)
    (ho : p ≠ objPathOf cfg s) (hd : p ≠ depPathOf cfg s) :
    (compile_file env cfg fs t s).fs p = fs p := by
  unfold compile_file
  dsimp only
  split
  · rfl
  · split
    · show ((fs.write (depPathOf cfg s) _).write (objPathOf cfg s) _) p = fs p
      rw [FS.write_other _ _ _ _ ho, FS.write_other _ _ _ _ hd]
    · rfl

theorem compile_file_time_le (env : CompilerEnv) (cfg : BuildConfig)
    (fs : FS) (t : Nat) (s : String) :
    t ≤ (compile_file env cfg fs t s).time := by
  unfold compile_file
  dsimp only
  split
  · exact Nat.le_refl t
  · split
    · exact Nat.le_succ t
    · exact Nat.le_succ t

theorem compile_file_events_shape (env : CompilerEnv) (cfg : BuildConfig)
    (fs : FS) (t : Nat) (s : String) :
    (compile_file env cfg fs t s).events = [Event.skipped s] ∨
    (compile_file env cfg fs t s).events = [Event.compiled s] := by
  unfold compile_file
  dsimp only
  split
  · exact Or.inl rfl
  · split
    · exact Or.inr rfl
    · exact Or.inr rfl

theorem runAll_fs_frame (env : CompilerEnv) (cfg : BuildConfig)
    (order : List String) :
    ∀ (fs : FS) (t : Nat) (p : String),
      (∀ s ∈ order, p ≠ objPathOf cfg s ∧ p ≠ depPathOf cfg s) →
      (runAll env cfg fs t order).fs p = fs p := by
  induction order with
  | nil => intro fs t p _; rfl
  | cons s rest ih =>
    intro fs t p hp
    have hs := hp s (List.mem_cons_self s rest)
    have hrest : ∀ u ∈ rest, p ≠ objPathOf cfg u ∧ p ≠ depPathOf cfg u :=
      fun u hu => hp u (List.mem_cons_of_mem s hu)
    show (runAll env cfg _ _ rest).fs p = fs p
    rw [ih _ _ p hrest, compile_file_fs_frame env cfg fs t s p hs.1 hs.2]

theorem runAll_time_le (env : CompilerEnv) (cfg : BuildConfig)
    (order : List String) :
    ∀ (fs : FS) (t : Nat), t ≤ (runAll env cfg fs t order).time := by
  induction order with
  | nil => intro fs t; exact Nat.le_refl t
  | cons s rest ih =>
    intro fs t
    exact Nat.le_trans (compile_file_time_le env cfg fs t s) (ih _ _)

theorem runAll_no_link_event (env : CompilerEnv) (cfg : BuildConfig)
    (order : List String) :
    ∀ (fs : FS) (t : Nat),
      Event.linked ∉ (runAll env cfg fs t order).events ∧
      Event.dbWritten ∉ (runAll env cfg fs t order).events := by
  induction order with
  | nil => intro fs t; exact ⟨List.not_mem_nil _, List.not_mem_nil _⟩
  | cons s rest ih =>
    intro fs t
    have hrest := ih (compile_file env cfg fs t s).fs (compile_file env cfg fs t s).time
    have hhead := compile_file_events_shape env cfg fs t s
    constructor
    · show Event.linked ∉ (compile_file env cfg fs t s).events ++ _
      rw [List.mem_append]
      rintro (hin | hin)
      · rcases hhead with he | he <;> rw [he] at hin <;> simp at hin
      · exact hrest.1 hin
    · show Event.dbWritten ∉ (compile_file env cfg fs t s).events ++ _
      rw [List.mem_append]
      rintro (hin | hin)
      · rcases hhead with he | he <;> rw [he] at hin <;> simp at hin
      · exact hrest.2 hin

theorem runAll_results_cdb (env : CompilerEnv) (cfg : BuildConfig)
    (order : List String) :
    ∀ (fs : FS) (t : Nat),
      (runAll env cfg fs t order).results.map (fun r => r.cdb_entry.file) = order ∧
      ∀ r ∈ (runAll env cfg fs t order).results, r.cdb_entry.directory = cfg.root_dir := by
  induction order with
  | nil => intro fs t; exact ⟨rfl, fun r hr => absurd hr (List.not_mem_nil r)⟩
  | cons s rest ih =>
    intro fs t
    have hshape := compile_file_result_shape env cfg fs t s
    have hrest := ih (compile_file env cfg fs t s).fs (compile_file env cfg fs t s).time
    constructor
    · show ((compile_file env cfg fs t s).result :: _).map _ = s :: rest
      rw [List.map_cons, hrest.1, hshape.2]
    · intro r hr
      rcases List.mem_cons.mp hr with rfl | hr2
      · rw [hshape.2]
      · exact hrest.2 r hr2

/-- The with-suffix construction always produces a path whose
characters end in the given suffix. -/
theorem joinSepL_ends (sep : List Char) (y : List Char) :
    ∀ xs, ∃ pre, joinSepL sep (xs ++ [y]) = pre ++ y := by
  intro xs
  induction xs with
  | nil => exact ⟨[], rfl⟩
  | cons x xs ih =>
    rcases ih with ⟨pre, hpre⟩
    cases xs with
    | nil => exact ⟨x ++ sep, by simp [joinSepL]⟩
    | cons x2 xs2 =>
      refine ⟨x ++ sep ++ pre, ?_⟩
      show x ++ sep ++ joinSepL sep ((x2 :: xs2) ++ [y]) = x ++ sep ++ pre ++ y
      rw [hpre, List.append_assoc, List.append_assoc, List.append_assoc]

theorem nameWithSuffixL_ends (name suffix : List Char) :
    ∃ pre, nameWithSuffixL name suffix = pre ++ suffix := by
  unfold nameWithSuffixL
  split
  · split
    · exact ⟨_, rfl⟩
    · exact ⟨name, rfl⟩
  · exact ⟨name, rfl⟩

theorem withSuffix_data_ends (p suffix : String) :
    ∃ pre, (withSuffix p suffix).data = pre ++ suffix.data := by
  unfold withSuffix
  rcases hsp : splitOnCharL '/' p.data with _ | ⟨x, xs⟩
  · exact ⟨p.data, rfl⟩
  · rcases nameWithSuffixL_ends ((x :: xs).getLastD []) suffix.data with ⟨pre2, hpre2⟩
    rcases joinSepL_ends ['/'] (nameWithSuffixL ((x :: xs).getLastD []) suffix.data)
      ((x :: xs).dropLast) with ⟨pre, hpre⟩
    refine ⟨pre ++ pre2, ?_⟩
    show joinSepL ['/']
        ((x :: xs).dropLast ++ [nameWithSuffixL ((x :: xs).getLastD []) suffix.data])
      = pre ++ pre2 ++ suffix.data
    rw [hpre, hpre2, List.append_assoc]

theorem objPathOf_data_last (cfg : BuildConfig) (s : String) :
    (objPathOf cfg s).data.getLast? = some 'o' := by
  rcases withSuffix_data_ends s ".o" with ⟨pre, hpre⟩
  show (cfg._build_dir ++ "/" ++ withSuffix s ".o").data.getLast? = some 'o'
  rw [String.data_append, hpre,
    List.getLast?_append_of_ne_nil _ (by simp),
    List.getLast?_append_of_ne_nil _ (by simp)]
  rfl

theorem depPathOf_data_last (cfg : BuildConfig) (s : String) :
    (depPathOf cfg s).data.getLast? = some 'd' := by
  rcases withSuffix_data_ends s ".d" with ⟨pre, hpre⟩
  show (cfg._build_dir ++ "/" ++ withSuffix s ".d").data.getLast? = some 'd'
  rw [String.data_append, hpre,
    List.getLast?_append_of_ne_nil _ (by simp),
    List.getLast?_append_of_ne_nil _ (by simp)]
  rfl

theorem link_hash_path_data_last (cfg : BuildConfig) :
    (link_hash_path cfg).data.getLast? = some 'h' := by
  show (cfg._build_dir ++ "/" ++ ("." ++ cfg.app_name ++ ".linkhash")).data.getLast?
      = some 'h'
  rw [String.data_append,
    List.getLast?_append_of_ne_nil _ (by simp),
    String.data_append,
    List.getLast?_append_of_ne_nil _ (by decide)]
  rfl

theorem link_hash_path_ne_objPath (cfg cfg2 : BuildConfig) (s : String) :
    link_hash_path cfg ≠ objPathOf cfg2 s := by
  intro h
  have h2 : (link_hash_path cfg).data.getLast? = (objPathOf cfg2 s).data.getLast? := by
    rw [h]
  rw [link_hash_path_data_last, objPathOf_data_last] at h2
  exact absurd (Option.some.inj h2) (by decide)

theorem link_hash_path_ne_depPath (cfg cfg2 : BuildConfig) (s : String) :
    link_hash_path cfg ≠ depPathOf cfg2 s := by
  intro h
  have h2 : (link_hash_path cfg).data.getLast? = (depPathOf cfg2 s).data.getLast? := by
    rw [h]
  rw [link_hash_path_data_last, depPathOf_data_last] at h2
  exact absurd (Option.some.inj h2) (by decide)

/-- C2: if any gathered per-file outcome has success false, compile
raises CompilationError (modelled as none), so build terminates with
no linker invocation and no database write, and neither the link-hash
marker nor any path other than the compile outputs — in particular the
executable, whose path is never a compile output in any sensible
configuration — is modified. -/
theorem compile_failure_aborts_build (h : String → String) (env : CompilerEnv)
    (cfg : BuildConfig) (fs : FS) (t : Nat) (gen_db verbose : Bool)
    (bt : BuildType) (order : List String)
    (hfail : ∃ x ∈ (runAll env (configure cfg verbose bt) fs t order).results,
      x.success = false) :
    compile env (configure cfg verbose bt) fs t order = none ∧
    (build h env cfg fs t gen_db verbose bt order).ok = false ∧
    Event.linked ∉ (build h env cfg fs t gen_db verbose bt order).events ∧
    Event.dbWritten ∉ (build h env cfg fs t gen_db verbose bt order).events ∧
    (build h env cfg fs t gen_db verbose bt order).fs
        (link_hash_path (configure cfg verbose bt))
      = fs (link_hash_path (configure cfg verbose bt)) ∧
    ((∀ s ∈ order, app_path (configure cfg verbose bt) ≠ objPathOf (configure cfg verbose bt) s ∧
        app_path (configure cfg verbose bt) ≠ depPathOf (configure cfg verbose bt) s) →
      (build h env cfg fs t gen_db verbose bt order).fs (app_path (configure cfg verbose bt))
        = fs (app_path (configure cfg verbose bt))) := by
  rcases hfail with ⟨x, hx, hxf⟩
  have hall : (runAll env (configure cfg verbose bt) fs t order).results.all
      (fun r => r.success) = false := by
    rcases hb : (runAll env (configure cfg verbose bt) fs t order).results.all
        (fun r => r.success) with _ | _
    · rfl
    · have := List.all_eq_true.mp hb x hx
      rw [hxf] at this
      exact absurd this (by decide)
  have hcompile : compile env (configure cfg verbose bt) fs t order = none := by
    unfold compile
    simp [hall]
  have hbuild : build h env cfg fs t gen_db verbose bt order =
      ⟨false, configure cfg verbose bt,
        (runAll env (configure cfg verbose bt) fs t order).fs,
        (runAll env (configure cfg verbose bt) fs t order).time,
        (runAll env (configure cfg verbose bt) fs t order).events⟩ := by
    unfold build
    simp [hall]
  rw [hbuild, hcompile]
  refine ⟨rfl, rfl, ?_, ?_, ?_, ?_⟩
  · exact (runAll_no_link_event env (configure cfg verbose bt) order fs t).1
  · exact (runAll_no_link_event env (configure cfg verbose bt) order fs t).2
  · exact runAll_fs_frame env (configure cfg verbose bt) order fs t _
      (fun s _ => ⟨link_hash_path_ne_objPath _ _ s, link_hash_path_ne_depPath _ _ s⟩)
  · intro happ
    exact runAll_fs_frame env (configure cfg verbose bt) order fs t _
      (fun s hs => (happ s hs))

theorem compile_failure_aborts_build_witness :
    (∃ x ∈ (runAll failEnv (configure sampleCfg false BuildType.debug)
        FS.empty 0 ["m.c"]).results, x.success = false) ∧
    compile failEnv (configure sampleCfg false BuildType.debug) FS.empty 0 ["m.c"] = none ∧
    (build hashStub failEnv sampleCfg FS.empty 0 false false BuildType.debug ["m.c"]).ok
      = false ∧
    Event.linked ∉
      (build hashStub failEnv sampleCfg FS.empty 0 false false BuildType.debug ["m.c"]).events :=
  ⟨by decide,
   (compile_failure_aborts_build hashStub failEnv sampleCfg FS.empty 0 false false
      BuildType.debug ["m.c"] (by decide)).1,
   (compile_failure_aborts_build hashStub failEnv sampleCfg FS.empty 0 false false
      BuildType.debug ["m.c"] (by decide)).2.1,
   (compile_failure_aborts_build hashStub failEnv sampleCfg FS.empty 0 false false
      BuildType.debug ["m.c"] (by decide)).2.2.1⟩

theorem build_reaches_finish (h : String → String) (env : CompilerEnv)
    (cfg : BuildConfig) (fs : FS) (t : Nat) (gen_db verbose : Bool)
    (bt : BuildType) (order : List String) :
    (build h env cfg fs t gen_db verbose bt order).ok = false ∨
    ∃ fsx tx evs,
      build h env cfg fs t gen_db verbose bt order
        = finishBuild gen_db (configure cfg verbose bt)
            (runAll env (configure cfg verbose bt) fs t order).results fsx tx evs := by
  unfold build
  dsimp only
  split
  · left; rfl
  · split
    · split
      · right; exact ⟨_, _, _, rfl⟩
      · left; rfl
    · right; exact ⟨_, _, _, rfl⟩

theorem finishBuild_db (cfg2 : BuildConfig) (results : List CompilationResult)
    (fs : FS) (t : Nat) (evs : List Event) :
    (finishBuild true cfg2 results fs t evs).fs "compile_commands.json"
      = some ⟨t, FileData.db (results.map (fun x => x.cdb_entry))⟩ := by
  unfold finishBuild
  exact FS.write_self fs "compile_commands.json" _

/-- C7: when database emission is requested and build succeeds, the
emitted compile database in compile_commands.json at the project root
(overwritten regardless of its prior content) has exactly one entry
per configured source — the gathered outcomes, skipped sources
included — with the file field of the entries forming a permutation
of the configured source list and every directory field equal to the
root directory of the configuration. -/
theorem build_db_complete (h : String → String) (env : CompilerEnv)
    (cfg : BuildConfig) (fs : FS) (t : Nat) (verbose : Bool) (bt : BuildType)
    (order : List String) (hord : order.Perm cfg.sources)
    (hok : (build h env cfg fs t true verbose bt order).ok = true) :
    ∃ mt entries,
      (build h env cfg fs t true verbose bt order).fs "compile_commands.json"
        = some ⟨mt, FileData.db entries⟩ ∧
      (entries.map (fun e => e.file)).Perm cfg.sources ∧
      ∀ e ∈ entries, e.directory = cfg.root_dir := by
  rcases build_reaches_finish h env cfg fs t true verbose bt order with hbad | ⟨fsx, tx, evs, hb⟩
  · rw [hbad] at hok
    exact absurd hok (by decide)
  · rw [hb, finishBuild_db]
    refine ⟨tx, _, rfl, ?_, ?_⟩
    · rw [List.map_map]
      have hfiles := (runAll_results_cdb env (configure cfg verbose bt) order fs t).1
      show ((runAll env (configure cfg verbose bt) fs t order).results.map
        (fun r => r.cdb_entry.file)).Perm cfg.sources
      rw [hfiles]
      exact hord
    · intro e he
      rcases List.mem_map.mp he with ⟨r, hr, rfl⟩
      exact (runAll_results_cdb env (configure cfg verbose bt) order fs t).2 r hr

theorem anyStaleDep_congr (fs fs2 : FS) (m : Nat) (l : List String)
    (hl : ∀ d ∈ l, fs2 d = fs d) :
    anyStaleDep fs2 m l = anyStaleDep fs m l := by
  induction l with
  | nil => rfl
  | cons d rest ih =>
    have hd := hl d (List.mem_cons_self d rest)
    have hex : fs2.existsF d = fs.existsF d := by unfold FS.existsF; rw [hd]
    have hmt : fs2.mtime d = fs.mtime d := by unfold FS.mtime; rw [hd]
    show (if fs2.existsF d = false then true
        else if m < fs2.mtime d then true else anyStaleDep fs2 m rest) = _
    rw [hex, hmt, ih (fun x hx => hl x (List.mem_cons_of_mem d hx))]
    rfl

theorem need_recompile_congr (fs fs2 : FS) (obj dep : String)
    (ho : fs2 obj = fs obj) (hd : fs2 dep = fs dep)
    (hdeps : ∀ d ∈ parse_dependencies (fs.readTextD dep), fs2 d = fs d) :
    need_recompile fs2 obj dep = need_recompile fs obj dep := by
  have hex : fs2.existsF obj = fs.existsF obj := by unfold FS.existsF; rw [ho]
  have hexd : fs2.existsF dep = fs.existsF dep := by unfold FS.existsF; rw [hd]
  have hmt : fs2.mtime obj = fs.mtime obj := by unfold FS.mtime; rw [ho]
  have hrd : fs2.readTextD dep = fs.readTextD dep := by unfold FS.readTextD; rw [hd]
  unfold need_recompile
  rw [hex, hexd, hmt, hrd]
  by_cases hc : (fs.existsF obj && fs.existsF dep) = true
  · rw [if_pos hc, if_pos hc, anyStaleDep_congr fs fs2 _ _ hdeps]
  · rw [if_neg hc, if_neg hc]

theorem runAll_all_skip (env : CompilerEnv) (cfg2 : BuildConfig)
    (order : List String) :
    ∀ (fs : FS) (t : Nat),
    (∀ s ∈ order, need_recompile fs (objPathOf cfg2 s) (depPathOf cfg2 s) = false) →
    runAll env cfg2 fs t order =
      ⟨order.map (fun s =>
          ⟨objPathOf cfg2 s, ⟨cfg2.root_dir, compileCmd cfg2 s, s⟩, true⟩),
       fs, t, order.map Event.skipped⟩ := by
  induction order with
  | nil => intro fs t _; rfl
  | cons s rest ih =>
    intro fs t hfresh
    have hs := hfresh s (List.mem_cons_self s rest)
    have hcf : compile_file env cfg2 fs t s =
        ⟨⟨objPathOf cfg2 s, ⟨cfg2.root_dir, compileCmd cfg2 s, s⟩, true⟩, fs, t,
          [Event.skipped s], [objPathOf cfg2 s ++ " is up to date. Skipping..."]⟩ := by
      unfold compile_file
      rw [if_pos hs]
    simp only [runAll, hcf]
    rw [ih fs t (fun u hu => hfresh u (List.mem_cons_of_mem s hu))]
    rfl

theorem runAll_zero_exit_post (env : CompilerEnv) (cfg2 : BuildConfig)
    (order : List String) :
    order.Nodup →
    (∀ s ∈ order, env.exitCode s = 0) →
    (∀ u ∈ order, ∀ v ∈ order,
      objPathOf cfg2 u ≠ depPathOf cfg2 v ∧
      (u ≠ v → objPathOf cfg2 u ≠ objPathOf cfg2 v ∧
        depPathOf cfg2 u ≠ depPathOf cfg2 v)) →
    ∀ (fs : FS) (t : Nat),
    (∀ s ∈ order, ∀ d ∈ parse_dependencies (fs.readTextD (depPathOf cfg2 s)),
      ∀ u ∈ order, d ≠ objPathOf cfg2 u ∧ d ≠ depPathOf cfg2 u) →
    (runAll env cfg2 fs t order).results
      = order.map (fun s =>
          ⟨objPathOf cfg2 s, ⟨cfg2.root_dir, compileCmd cfg2 s, s⟩, true⟩) ∧
    ∀ s ∈ order,
      ((runAll env cfg2 fs t order).fs (objPathOf cfg2 s) = fs (objPathOf cfg2 s) ∧
       (runAll env cfg2 fs t order).fs (depPathOf cfg2 s) = fs (depPathOf cfg2 s) ∧
       need_recompile fs (objPathOf cfg2 s) (depPathOf cfg2 s) = false) ∨
      (∃ tw, t ≤ tw ∧ tw < (runAll env cfg2 fs t order).time ∧
       (runAll env cfg2 fs t order).fs (objPathOf cfg2 s)
          = some ⟨tw, FileData.obj⟩ ∧
       (runAll env cfg2 fs t order).fs (depPathOf cfg2 s)
          = some ⟨tw, FileData.text (env.depOutput s)⟩) := by
  induction order with
  | nil =>
    intro _ _ _ fs t _
    exact ⟨rfl, fun s hs => absurd hs (List.not_mem_nil s)⟩
  | cons s rest ih =>
    intro hnd hex hdist fs t hdep
    have hsmem : s ∈ s :: rest := List.mem_cons_self s rest
    have hsrest : s ∉ rest := (List.nodup_cons.mp hnd).1
    have hndr : rest.Nodup := (List.nodup_cons.mp hnd).2
    have hexr : ∀ u ∈ rest, env.exitCode u = 0 :=
      fun u hu => hex u (List.mem_cons_of_mem s hu)
    have hdistr : ∀ u ∈ rest, ∀ v ∈ rest,
        objPathOf cfg2 u ≠ depPathOf cfg2 v ∧
        (u ≠ v → objPathOf cfg2 u ≠ objPathOf cfg2 v ∧
          depPathOf cfg2 u ≠ depPathOf cfg2 v) :=
      fun u hu v hv =>
        hdist u (List.mem_cons_of_mem s hu) v (List.mem_cons_of_mem s hv)
    have hobj_s : ∀ u ∈ rest,
        objPathOf cfg2 s ≠ objPathOf cfg2 u ∧ objPathOf cfg2 s ≠ depPathOf cfg2 u :=
      fun u hu =>
        ⟨((hdist s hsmem u (List.mem_cons_of_mem s hu)).2
            (fun he => hsrest (he ▸ hu))).1,
         (hdist s hsmem u (List.mem_cons_of_mem s hu)).1⟩
    have hdep_s : ∀ u ∈ rest,
        depPathOf cfg2 s ≠ objPathOf cfg2 u ∧ depPathOf cfg2 s ≠ depPathOf cfg2 u :=
      fun u hu =>
        ⟨Ne.symm (hdist u (List.mem_cons_of_mem s hu) s hsmem).1,
         ((hdist s hsmem u (List.mem_cons_of_mem s hu)).2
            (fun he => hsrest (he ▸ hu))).2⟩
    have hod : objPathOf cfg2 s ≠ depPathOf cfg2 s := (hdist s hsmem s hsmem).1
    by_cases hrec : need_recompile fs (objPathOf cfg2 s) (depPathOf cfg2 s) = false
    · -- the head source is skipped: the state is untouched
      have hcf : compile_file env cfg2 fs t s =
          ⟨⟨objPathOf cfg2 s, ⟨cfg2.root_dir, compileCmd cfg2 s, s⟩, true⟩, fs, t,
            [Event.skipped s], [objPathOf cfg2 s ++ " is up to date. Skipping..."]⟩ := by
        unfold compile_file
        rw [if_pos hrec]
      have hih := ih hndr hexr hdistr fs t
        (fun u hu d hd v hv =>
          hdep u (List.mem_cons_of_mem s hu) d hd v (List.mem_cons_of_mem s hv))
      simp only [runAll, hcf]
      refine ⟨by rw [List.map_cons, hih.1], ?_⟩
      intro u hu
      rcases List.mem_cons.mp hu with rfl | hur
      · left
        refine ⟨?_, ?_, hrec⟩
        · exact runAll_fs_frame env cfg2 rest fs t _ (fun v hv => hobj_s v hv)
        · exact runAll_fs_frame env cfg2 rest fs t _ (fun v hv => hdep_s v hv)
      · exact hih.2 u hur
    · -- the head source is compiled at time t
      have hexit : env.exitCode s = 0 := hex s hsmem
      have hcf : compile_file env cfg2 fs t s =
          ⟨⟨objPathOf cfg2 s, ⟨cfg2.root_dir, compileCmd cfg2 s, s⟩, true⟩,
            (fs.write (depPathOf cfg2 s) ⟨t, FileData.text (env.depOutput s)⟩).write
              (objPathOf cfg2 s) ⟨t, FileData.obj⟩,
            t + 1, [Event.compiled s], ["Compiling " ++ s ++ "..."]⟩ := by
        unfold compile_file
        rw [if_neg hrec, if_pos hexit]
      have hfsw : ∀ p, p ≠ objPathOf cfg2 s → p ≠ depPathOf cfg2 s →
          ((fs.write (depPathOf cfg2 s) ⟨t, FileData.text (env.depOutput s)⟩).write
            (objPathOf cfg2 s) ⟨t, FileData.obj⟩) p = fs p := by
        intro p hpo hpd
        rw [FS.write_other _ _ _ _ hpo, FS.write_other _ _ _ _ hpd]
      have hih := ih hndr hexr hdistr
        ((fs.write (depPathOf cfg2 s) ⟨t, FileData.text (env.depOutput s)⟩).write
          (objPathOf cfg2 s) ⟨t, FileData.obj⟩) (t + 1)
        (by
          intro u hu d hd v hv
          rw [show FS.readTextD
              ((fs.write (depPathOf cfg2 s) ⟨t, FileData.text (env.depOutput s)⟩).write
                (objPathOf cfg2 s) ⟨t, FileData.obj⟩) (depPathOf cfg2 u)
              = fs.readTextD (depPathOf cfg2 u) from by
            unfold FS.readTextD
            rw [hfsw _ (Ne.symm (hobj_s u hu).2) (Ne.symm (hdep_s u hu).2)]] at hd
          exact hdep u (List.mem_cons_of_mem s hu) d hd v (List.mem_cons_of_mem s hv))
      simp only [runAll, hcf]
      refine ⟨by rw [List.map_cons, hih.1], ?_⟩
      intro u hu
      rcases List.mem_cons.mp hu with rfl | hur
      · right
        refine ⟨t, Nat.le_refl t, ?_, ?_, ?_⟩
        · exact Nat.lt_of_lt_of_le (Nat.lt_succ_self t) (runAll_time_le env cfg2 rest _ _)
        · rw [runAll_fs_frame env cfg2 rest _ _ _ (fun v hv => hobj_s v hv),
            FS.write_self]
        · rw [runAll_fs_frame env cfg2 rest _ _ _ (fun v hv => hdep_s v hv),
            FS.write_other _ _ _ _ (Ne.symm hod), FS.write_self]
      · rcases hih.2 u hur with ⟨hou, hdu, hfr⟩ | ⟨tw, htw1, htw2, hotw, hdtw⟩
        · left
          have hou2 : objPathOf cfg2 u ≠ objPathOf cfg2 s :=
            Ne.symm (hobj_s u hur).1
          have hou3 : objPathOf cfg2 u ≠ depPathOf cfg2 s :=
            (hdist u (List.mem_cons_of_mem s hur) s hsmem).1
          have hdu2 : depPathOf cfg2 u ≠ objPathOf cfg2 s :=
            Ne.symm (hobj_s u hur).2
          have hdu3 : depPathOf cfg2 u ≠ depPathOf cfg2 s :=
            Ne.symm (hdep_s u hur).2
          refine ⟨by rw [hou, hfsw _ hou2 hou3], by rw [hdu, hfsw _ hdu2 hdu3], ?_⟩
          rw [← need_recompile_congr fs
            ((fs.write (depPathOf cfg2 s) ⟨t, FileData.text (env.depOutput s)⟩).write
              (objPathOf cfg2 s) ⟨t, FileData.obj⟩)
            (objPathOf cfg2 u) (depPathOf cfg2 u)
            (hfsw _ hou2 hou3) (hfsw _ hdu2 hdu3)
            (fun d hd =>
              hfsw d
                (hdep u (List.mem_cons_of_mem s hur) d hd s hsmem).1
                (hdep u (List.mem_cons_of_mem s hur) d hd s hsmem).2)]
          exact hfr
        · right
          exact ⟨tw, Nat.le_trans (Nat.le_succ t) htw1, htw2, hotw, hdtw⟩

theorem need_recompile_false_of (fs : FS) (obj dep : String)
    (ho : fs.existsF obj = true) (hd : fs.existsF dep = true)
    (hdeps : ∀ d ∈ parse_dependencies (fs.readTextD dep),
      fs.existsF d = true ∧ fs.mtime d ≤ fs.mtime obj) :
    need_recompile fs obj dep = false := by
  unfold need_recompile
  rw [ho, hd]
  show (if (true && true) = true then
      anyStaleDep fs (fs.mtime obj) (parse_dependencies (fs.readTextD dep)) else true)
    = false
  rw [if_pos (by decide)]
  apply bool_ne_true
  rw [anyStaleDep_iff]
  rintro ⟨d, hdm, hbad | hbad⟩
  · rw [(hdeps d hdm).1] at hbad
    exact absurd hbad (by decide)
  · exact absurd hbad (Nat.not_lt.mpr (hdeps d hdm).2)

theorem need_recompile_false_elim (fs : FS) (obj dep : String)
    (h : need_recompile fs obj dep = false) :
    fs.existsF obj = true ∧ fs.existsF dep = true ∧
    ∀ d ∈ parse_dependencies (fs.readTextD dep),
      fs.existsF d = true ∧ fs.mtime d ≤ fs.mtime obj := by
  have hnot : ¬(need_recompile fs obj dep = true) := by
    rw [h]
    exact fun he => absurd he (by decide)
  rw [need_recompile_iff_aux] at hnot
  push_neg at hnot
  obtain ⟨h1, h2, h3⟩ := hnot
  refine ⟨bool_ne_false h1, bool_ne_false h2, fun d hd => ?_⟩
  have hdd := h3 d hd
  push_neg at hdd
  exact ⟨bool_ne_false hdd.1, hdd.2⟩

theorem need_relink_false_elim (h : String → String) (cfg2 : BuildConfig)
    (fs : FS) (obj_paths link_cmd : List String)
    (hrel : need_relink h cfg2 fs obj_paths link_cmd = false) :
    fs.existsF (app_path cfg2) = true ∧
    (∀ s0, fs.readText (link_hash_path cfg2) = some s0 →
      pyStrip s0 = _calc_link_hash h link_cmd) ∧
    (fs.readText (link_hash_path cfg2) ≠ none) ∧
    ∀ o ∈ obj_paths, fs.mtime o ≤ fs.mtime (app_path cfg2) := by
  have hnot : ¬(need_relink h cfg2 fs obj_paths link_cmd = true) := by
    rw [hrel]
    exact fun he => absurd he (by decide)
  rw [need_relink_iff_aux] at hnot
  push_neg at hnot
  obtain ⟨h1, h2, h3, h4⟩ := hnot
  exact ⟨bool_ne_false h1, h3, h2, h4⟩

theorem build_relink_true_eq (h : String → String) (env : CompilerEnv)
    (cfg : BuildConfig) (verbose : Bool) (bt : BuildType) (fs : FS) (t : Nat)
    (order : List String)
    (hall : ((runAll env (configure cfg verbose bt) fs t order).results.all
      (fun x => x.success)) = true)
    (hrel : need_relink h (configure cfg verbose bt)
        (runAll env (configure cfg verbose bt) fs t order).fs
        ((runAll env (configure cfg verbose bt) fs t order).results.map
          (fun x => x.obj_path))
        ([(configure cfg verbose bt).compiler]
          ++ (runAll env (configure cfg verbose bt) fs t order).results.map
            (fun x => x.obj_path)
          ++ (configure cfg verbose bt).libs
          ++ ["-o", app_path (configure cfg verbose bt)]) = true)
    (hlex : env.linkExit = 0) :
    build h env cfg fs t false verbose bt order =
      ⟨true, configure cfg verbose bt,
        ((runAll env (configure cfg verbose bt) fs t order).fs.write
            (app_path (configure cfg verbose bt))
            ⟨(runAll env (configure cfg verbose bt) fs t order).time, FileData.exe⟩).write
          (link_hash_path (configure cfg verbose bt))
          ⟨(runAll env (configure cfg verbose bt) fs t order).time,
            FileData.text (_calc_link_hash h
              ([(configure cfg verbose bt).compiler]
                ++ (runAll env (configure cfg verbose bt) fs t order).results.map
                  (fun x => x.obj_path)
                ++ (configure cfg verbose bt).libs
                ++ ["-o", app_path (configure cfg verbose bt)]))⟩,
        (runAll env (configure cfg verbose bt) fs t order).time + 1,
        (runAll env (configure cfg verbose bt) fs t order).events ++ [Event.linked]⟩ := by
  unfold build finishBuild
  simp only [List.cons_append, List.nil_append, List.append_assoc] at hrel
  simp [hall, hrel, hlex]

theorem build_relink_false_eq (h : String → String) (env : CompilerEnv)
    (cfg : BuildConfig) (verbose : Bool) (bt : BuildType) (fs : FS) (t : Nat)
    (order : List String)
    (hall : ((runAll env (configure cfg verbose bt) fs t order).results.all
      (fun x => x.success)) = true)
    (hrel : need_relink h (configure cfg verbose bt)
        (runAll env (configure cfg verbose bt) fs t order).fs
        ((runAll env (configure cfg verbose bt) fs t order).results.map
          (fun x => x.obj_path))
        ([(configure cfg verbose bt).compiler]
          ++ (runAll env (configure cfg verbose bt) fs t order).results.map
            (fun x => x.obj_path)
          ++ (configure cfg verbose bt).libs
          ++ ["-o", app_path (configure cfg verbose bt)]) = false) :
    build h env cfg fs t false verbose bt order =
      ⟨true, configure cfg verbose bt,
        (runAll env (configure cfg verbose bt) fs t order).fs,
        (runAll env (configure cfg verbose bt) fs t order).time,
        (runAll env (configure cfg verbose bt) fs t order).events
          ++ [Event.linkSkipped]⟩ := by
  unfold build finishBuild
  simp only [List.cons_append, List.nil_append, List.append_assoc] at hrel
  simp [hall, hrel]

theorem build_all_skip (h : String → String) (env : CompilerEnv) (cfg : BuildConfig)
    (verbose : Bool) (bt : BuildType) (fsB : FS) (tB : Nat) (order : List String)
    (hfresh : ∀ s ∈ order, need_recompile fsB (objPathOf (configure cfg verbose bt) s)
      (depPathOf (configure cfg verbose bt) s) = false)
    (hrel : need_relink h (configure cfg verbose bt) fsB
      (order.map (fun s => objPathOf (configure cfg verbose bt) s))
      ([(configure cfg verbose bt).compiler]
        ++ order.map (fun s => objPathOf (configure cfg verbose bt) s)
        ++ (configure cfg verbose bt).libs
        ++ ["-o", app_path (configure cfg verbose bt)]) = false) :
    build h env cfg fsB tB false verbose bt order =
      ⟨true, configure cfg verbose bt, fsB, tB,
        order.map Event.skipped ++ [Event.linkSkipped]⟩ := by
  have hrun := runAll_all_skip env (configure cfg verbose bt) order fsB tB hfresh
  have hall : ((runAll env (configure cfg verbose bt) fsB tB order).results.all
      (fun x => x.success)) = true := by
    rw [hrun]
    show (order.map _).all _ = true
    rw [List.all_eq_true]
    intro x hx
    rcases List.mem_map.mp hx with ⟨u, _, rfl⟩
    rfl
  have hmap : (runAll env (configure cfg verbose bt) fsB tB order).results.map
      (fun x => x.obj_path)
      = order.map (fun s => objPathOf (configure cfg verbose bt) s) := by
    rw [hrun]
    show (order.map _).map _ = _
    rw [List.map_map]
    rfl
  have hrel2 : need_relink h (configure cfg verbose bt)
      (runAll env (configure cfg verbose bt) fsB tB order).fs
      ((runAll env (configure cfg verbose bt) fsB tB order).results.map
        (fun x => x.obj_path))
      ([(configure cfg verbose bt).compiler]
        ++ (runAll env (configure cfg verbose bt) fsB tB order).results.map
          (fun x => x.obj_path)
        ++ (configure cfg verbose bt).libs
        ++ ["-o", app_path (configure cfg verbose bt)]) = false := by
    rw [hmap, hrun]
    exact hrel
  rw [build_relink_false_eq h env cfg verbose bt fsB tB order hall hrel2, hrun]

/-- C4: after a successful build, running build again on the same
configuration with no change to any source, header, flag, or artifact
performs zero compiler invocations — every recompile check returns
false and every source takes the skip branch — and zero linker
invocations — the relink check returns false: the event trace of the
second run is exactly one skip per source followed by the link-skip
decision.  The hypotheses state the side conditions this rests on:
both runs gather the same source set in some completion orders, all
compiler and linker exits are zero, digests carry no surrounding
whitespace, the per-source output paths and the executable and marker
paths are pairwise distinct, files present before the build are not
newer than the starting clock, and every dependency list names only
existing input files older than the starting clock and distinct from
all build outputs. -/
theorem build_idempotent (h : String → String) (env : CompilerEnv)
    (cfg : BuildConfig) (fs0 : FS) (t0 : Nat) (verbose : Bool) (bt : BuildType)
    (order1 order2 : List String)
    (hord1 : order1.Perm cfg.sources) (hord2 : order2.Perm cfg.sources)
    (hexit : ∀ s ∈ cfg.sources, env.exitCode s = 0)
    (hlink : env.linkExit = 0)
    (htrim : ∀ x, pyStrip (h x) = h x)
    (hsnd : cfg.sources.Nodup)
    (hdist : ∀ u ∈ cfg.sources, ∀ v ∈ cfg.sources,
      objPathOf (configure cfg verbose bt) u ≠ depPathOf (configure cfg verbose bt) v ∧
      (u ≠ v →
        objPathOf (configure cfg verbose bt) u ≠ objPathOf (configure cfg verbose bt) v ∧
        depPathOf (configure cfg verbose bt) u ≠ depPathOf (configure cfg verbose bt) v))
    (happ : ∀ u ∈ cfg.sources,
      app_path (configure cfg verbose bt) ≠ objPathOf (configure cfg verbose bt) u ∧
      app_path (configure cfg verbose bt) ≠ depPathOf (configure cfg verbose bt) u)
    (happm : app_path (configure cfg verbose bt) ≠ link_hash_path (configure cfg verbose bt))
    (hmtobj : ∀ u ∈ cfg.sources,
      fs0.mtime (objPathOf (configure cfg verbose bt) u) ≤ t0)
    (hdep0 : ∀ s ∈ cfg.sources,
      ∀ d ∈ parse_dependencies
        (fs0.readTextD (depPathOf (configure cfg verbose bt) s)),
        offOutputs (configure cfg verbose bt) cfg.sources d)
    (hdepC : ∀ s ∈ cfg.sources, ∀ d ∈ parse_dependencies (env.depOutput s),
      offOutputs (configure cfg verbose bt) cfg.sources d ∧
      (fs0 d).isSome = true ∧ fs0.mtime d ≤ t0) :
    (build h env cfg fs0 t0 false verbose bt order1).ok = true ∧
    (build h env cfg (build h env cfg fs0 t0 false verbose bt order1).fs
      (build h env cfg fs0 t0 false verbose bt order1).time
      false verbose bt order2).ok = true ∧
    (build h env cfg (build h env cfg fs0 t0 false verbose bt order1).fs
      (build h env cfg fs0 t0 false verbose bt order1).time
      false verbose bt order2).events
      = order2.map Event.skipped ++ [Event.linkSkipped] ∧
    (∀ s, Event.compiled s ∉
      (build h env cfg (build h env cfg fs0 t0 false verbose bt order1).fs
        (build h env cfg fs0 t0 false verbose bt order1).time
        false verbose bt order2).events) ∧
    Event.linked ∉
      (build h env cfg (build h env cfg fs0 t0 false verbose bt order1).fs
        (build h env cfg fs0 t0 false verbose bt order1).time
        false verbose bt order2).events := by
  set cfg2 := configure cfg verbose bt with hcfg2
  have hmem1 : ∀ s : String, s ∈ order1 ↔ s ∈ cfg.sources := fun s => hord1.mem_iff
  have hmem2 : ∀ s : String, s ∈ order2 ↔ s ∈ cfg.sources := fun s => hord2.mem_iff
  have hnd1 : order1.Nodup := hord1.nodup_iff.mpr hsnd
  have hex1 : ∀ s ∈ order1, env.exitCode s = 0 := fun s hs => hexit s ((hmem1 s).mp hs)
  have hdist1 : ∀ u ∈ order1, ∀ v ∈ order1,
      objPathOf cfg2 u ≠ depPathOf cfg2 v ∧
      (u ≠ v → objPathOf cfg2 u ≠ objPathOf cfg2 v ∧
        depPathOf cfg2 u ≠ depPathOf cfg2 v) :=
    fun u hu v hv => hdist u ((hmem1 u).mp hu) v ((hmem1 v).mp hv)
  have hdep1 : ∀ s ∈ order1,
      ∀ d ∈ parse_dependencies (fs0.readTextD (depPathOf cfg2 s)),
      ∀ u ∈ order1, d ≠ objPathOf cfg2 u ∧ d ≠ depPathOf cfg2 u :=
    fun s hs d hd u hu =>
      (hdep0 s ((hmem1 s).mp hs) d hd).1 u ((hmem1 u).mp hu)
  have hpost := runAll_zero_exit_post env cfg2 order1 hnd1 hex1 hdist1 fs0 t0 hdep1
  have hres1 := hpost.1
  have hall1 : ((runAll env cfg2 fs0 t0 order1).results.all
      (fun x => x.success)) = true := by
    rw [hres1, List.all_eq_true]
    intro x hx
    rcases List.mem_map.mp hx with ⟨u, _, rfl⟩
    rfl
  have hobjs1 : (runAll env cfg2 fs0 t0 order1).results.map (fun x => x.obj_path)
      = order1.map (fun s => objPathOf cfg2 s) := by
    rw [hres1, List.map_map]
    rfl
  have ht0 : t0 ≤ (runAll env cfg2 fs0 t0 order1).time :=
    runAll_time_le env cfg2 order1 fs0 t0
  have hframe1 : ∀ p, (∀ u ∈ order1, p ≠ objPathOf cfg2 u ∧ p ≠ depPathOf cfg2 u) →
      (runAll env cfg2 fs0 t0 order1).fs p = fs0 p :=
    fun p hp => runAll_fs_frame env cfg2 order1 fs0 t0 p hp
  have G1 : ∀ fsB : FS,
      (∀ q, q ≠ app_path cfg2 → q ≠ link_hash_path cfg2 →
        fsB q = (runAll env cfg2 fs0 t0 order1).fs q) →
      ∀ s ∈ cfg.sources,
        need_recompile fsB (objPathOf cfg2 s) (depPathOf cfg2 s) = false := by
    intro fsB hB s hsrc
    have hs1 : s ∈ order1 := (hmem1 s).mpr hsrc
    have hBobj : fsB (objPathOf cfg2 s) = (runAll env cfg2 fs0 t0 order1).fs (objPathOf cfg2 s) :=
      hB _ (Ne.symm (happ s hsrc).1) (Ne.symm (link_hash_path_ne_objPath cfg2 cfg2 s))
    have hBdep : fsB (depPathOf cfg2 s) = (runAll env cfg2 fs0 t0 order1).fs (depPathOf cfg2 s) :=
      hB _ (Ne.symm (happ s hsrc).2) (Ne.symm (link_hash_path_ne_depPath cfg2 cfg2 s))
    rcases hpost.2 s hs1 with ⟨hobj, hdepv, hrec0⟩ | ⟨tw, htw0, htwT, hobj, hdepv⟩
    · obtain ⟨hex0o, hex0d, hdeps0⟩ := need_recompile_false_elim fs0 _ _ hrec0
      have hBobj0 : fsB (objPathOf cfg2 s) = fs0 (objPathOf cfg2 s) := by
        rw [hBobj, hobj]
      have hBdep0 : fsB (depPathOf cfg2 s) = fs0 (depPathOf cfg2 s) := by
        rw [hBdep, hdepv]
      have hdval : ∀ d ∈ parse_dependencies (fs0.readTextD (depPathOf cfg2 s)),
          fsB d = fs0 d := by
        intro d hd
        have hoff := hdep0 s hsrc d hd
        rw [hB d hoff.2.1 hoff.2.2]
        exact hframe1 d (fun u hu => hoff.1 u ((hmem1 u).mp hu))
      have hrtd : fsB.readTextD (depPathOf cfg2 s) = fs0.readTextD (depPathOf cfg2 s) := by
        unfold FS.readTextD
        rw [hBdep0]
      apply need_recompile_false_of
      · show (fsB (objPathOf cfg2 s)).isSome = true
        rw [hBobj0]
        exact hex0o
      · show (fsB (depPathOf cfg2 s)).isSome = true
        rw [hBdep0]
        exact hex0d
      · rw [hrtd]
        intro d hd
        have hv := hdval d hd
        have he : fsB.existsF d = fs0.existsF d := by
          unfold FS.existsF
          rw [hv]
        have hm : fsB.mtime d = fs0.mtime d := by
          unfold FS.mtime
          rw [hv]
        have hmo : fsB.mtime (objPathOf cfg2 s) = fs0.mtime (objPathOf cfg2 s) := by
          unfold FS.mtime
          rw [hBobj0]
        rw [he, hm, hmo]
        exact hdeps0 d hd
    · have hBobj2 : fsB (objPathOf cfg2 s) = some ⟨tw, FileData.obj⟩ := by
        rw [hBobj, hobj]
      have hBdep2 : fsB (depPathOf cfg2 s) = some ⟨tw, FileData.text (env.depOutput s)⟩ := by
        rw [hBdep, hdepv]
      have hrtd : fsB.readTextD (depPathOf cfg2 s) = env.depOutput s := by
        unfold FS.readTextD
        rw [hBdep2]
        rfl
      apply need_recompile_false_of
      · show (fsB (objPathOf cfg2 s)).isSome = true
        rw [hBobj2]
        rfl
      · show (fsB (depPathOf cfg2 s)).isSome = true
        rw [hBdep2]
        rfl
      · rw [hrtd]
        intro d hd
        obtain ⟨hoff, hsome, hmt⟩ := hdepC s hsrc d hd
        have hv : fsB d = fs0 d := by
          rw [hB d hoff.2.1 hoff.2.2]
          exact hframe1 d (fun u hu => hoff.1 u ((hmem1 u).mp hu))
        constructor
        · show (fsB d).isSome = true
          rw [hv]
          exact hsome
        · have hm : fsB.mtime d = fs0.mtime d := by
            unfold FS.mtime
            rw [hv]
          have hmo : fsB.mtime (objPathOf cfg2 s) = tw := by
            unfold FS.mtime
            rw [hBobj2]
          rw [hm, hmo]
          exact Nat.le_trans hmt htw0
  have G2 : ∀ u ∈ cfg.sources,
      (runAll env cfg2 fs0 t0 order1).fs.mtime (objPathOf cfg2 u)
        ≤ (runAll env cfg2 fs0 t0 order1).time := by
    intro u hu
    rcases hpost.2 u ((hmem1 u).mpr hu) with ⟨hobj, _, _⟩ | ⟨tw, _, htwT, hobj, _⟩
    · have hv : (runAll env cfg2 fs0 t0 order1).fs.mtime (objPathOf cfg2 u)
          = fs0.mtime (objPathOf cfg2 u) := by
        unfold FS.mtime
        rw [hobj]
      rw [hv]
      exact Nat.le_trans (hmtobj u hu) ht0
    · have hv : (runAll env cfg2 fs0 t0 order1).fs.mtime (objPathOf cfg2 u) = tw := by
        unfold FS.mtime
        rw [hobj]
      rw [hv]
      exact Nat.le_of_lt htwT
  have hhash2 : ∀ cmdA cmdB : List String, cmdA.Perm cmdB →
      _calc_link_hash h cmdA = _calc_link_hash h cmdB := by
    intro cmdA cmdB hp
    unfold _calc_link_hash
    rw [sortStrings_eq_of_perm hp]
  have hcmdperm :
      ([cfg2.compiler] ++ order1.map (fun s => objPathOf cfg2 s) ++ cfg2.libs
        ++ ["-o", app_path cfg2]).Perm
      ([cfg2.compiler] ++ order2.map (fun s => objPathOf cfg2 s) ++ cfg2.libs
        ++ ["-o", app_path cfg2]) :=
    (((List.Perm.refl _).append ((hord1.trans hord2.symm).map _)).append
      (List.Perm.refl _)).append (List.Perm.refl _)
  have hhashefq : _calc_link_hash h ([cfg2.compiler]
        ++ (runAll env cfg2 fs0 t0 order1).results.map (fun x => x.obj_path)
        ++ cfg2.libs ++ ["-o", app_path cfg2])
      = _calc_link_hash h ([cfg2.compiler]
        ++ order2.map (fun s => objPathOf cfg2 s)
        ++ cfg2.libs ++ ["-o", app_path cfg2]) := by
    rw [hobjs1]
    exact hhash2 _ _ hcmdperm
  by_cases hrel1 : need_relink h cfg2 (runAll env cfg2 fs0 t0 order1).fs
      ((runAll env cfg2 fs0 t0 order1).results.map (fun x => x.obj_path))
      ([cfg2.compiler]
        ++ (runAll env cfg2 fs0 t0 order1).results.map (fun x => x.obj_path)
        ++ cfg2.libs ++ ["-o", app_path cfg2]) = true
  · -- the first run also relinks; the executable and the marker are written
    have hb1 := build_relink_true_eq h env cfg verbose bt fs0 t0 order1 hall1 hrel1 hlink
    have hBfsL : ∀ q, q ≠ app_path cfg2 → q ≠ link_hash_path cfg2 →
        (((runAll env cfg2 fs0 t0 order1).fs.write (app_path cfg2)
            ⟨(runAll env cfg2 fs0 t0 order1).time, FileData.exe⟩).write
          (link_hash_path cfg2)
          ⟨(runAll env cfg2 fs0 t0 order1).time,
            FileData.text (_calc_link_hash h ([cfg2.compiler]
              ++ (runAll env cfg2 fs0 t0 order1).results.map (fun x => x.obj_path)
              ++ cfg2.libs ++ ["-o", app_path cfg2]))⟩) q
          = (runAll env cfg2 fs0 t0 order1).fs q := by
      intro q hqa hqm
      rw [FS.write_other _ _ _ _ hqm, FS.write_other _ _ _ _ hqa]
    have hfresh2 : ∀ s ∈ order2,
        need_recompile
          (((runAll env cfg2 fs0 t0 order1).fs.write (app_path cfg2)
              ⟨(runAll env cfg2 fs0 t0 order1).time, FileData.exe⟩).write
            (link_hash_path cfg2)
            ⟨(runAll env cfg2 fs0 t0 order1).time,
              FileData.text (_calc_link_hash h ([cfg2.compiler]
                ++ (runAll env cfg2 fs0 t0 order1).results.map (fun x => x.obj_path)
                ++ cfg2.libs ++ ["-o", app_path cfg2]))⟩)
          (objPathOf cfg2 s) (depPathOf cfg2 s) = false :=
      fun s hs => G1 _ hBfsL s ((hmem2 s).mp hs)
    have happv :
        (((runAll env cfg2 fs0 t0 order1).fs.write (app_path cfg2)
            ⟨(runAll env cfg2 fs0 t0 order1).time, FileData.exe⟩).write
          (link_hash_path cfg2)
          ⟨(runAll env cfg2 fs0 t0 order1).time,
            FileData.text (_calc_link_hash h ([cfg2.compiler]
              ++ (runAll env cfg2 fs0 t0 order1).results.map (fun x => x.obj_path)
              ++ cfg2.libs ++ ["-o", app_path cfg2]))⟩) (app_path cfg2)
          = some ⟨(runAll env cfg2 fs0 t0 order1).time, FileData.exe⟩ := by
      rw [FS.write_other _ _ _ _ happm, FS.write_self]
    have hmarkv :
        (((runAll env cfg2 fs0 t0 order1).fs.write (app_path cfg2)
            ⟨(runAll env cfg2 fs0 t0 order1).time, FileData.exe⟩).write
          (link_hash_path cfg2)
          ⟨(runAll env cfg2 fs0 t0 order1).time,
            FileData.text (_calc_link_hash h ([cfg2.compiler]
              ++ (runAll env cfg2 fs0 t0 order1).results.map (fun x => x.obj_path)
              ++ cfg2.libs ++ ["-o", app_path cfg2]))⟩) (link_hash_path cfg2)
          = some ⟨(runAll env cfg2 fs0 t0 order1).time,
            FileData.text (_calc_link_hash h ([cfg2.compiler]
              ++ (runAll env cfg2 fs0 t0 order1).results.map (fun x => x.obj_path)
              ++ cfg2.libs ++ ["-o", app_path cfg2]))⟩ :=
      FS.write_self _ _ _
    have hrel2 : need_relink h cfg2
        (((runAll env cfg2 fs0 t0 order1).fs.write (app_path cfg2)
            ⟨(runAll env cfg2 fs0 t0 order1).time, FileData.exe⟩).write
          (link_hash_path cfg2)
          ⟨(runAll env cfg2 fs0 t0 order1).time,
            FileData.text (_calc_link_hash h ([cfg2.compiler]
              ++ (runAll env cfg2 fs0 t0 order1).results.map (fun x => x.obj_path)
              ++ cfg2.libs ++ ["-o", app_path cfg2]))⟩)
        (order2.map (fun s => objPathOf cfg2 s))
        ([cfg2.compiler] ++ order2.map (fun s => objPathOf cfg2 s) ++ cfg2.libs
          ++ ["-o", app_path cfg2]) = false := by
      apply bool_ne_true
      rw [need_relink_iff_aux]
      push_neg
      refine ⟨?_, ?_, ?_, ?_⟩
      · intro he
        unfold FS.existsF at he
        rw [happv] at he
        simp at he
      · intro he
        unfold FS.readText at he
        rw [hmarkv] at he
        exact Option.noConfusion he
      · intro s0 hs0
        unfold FS.readText at hs0
        rw [hmarkv] at hs0
        have hs0v := Option.some.inj hs0
        rw [← hs0v]
        show pyStrip (_calc_link_hash h _) = _
        rw [show ∀ cmd : List String, pyStrip (_calc_link_hash h cmd)
            = _calc_link_hash h cmd from fun cmd => htrim _]
        exact hhashefq
      · intro o ho
        rcases List.mem_map.mp ho with ⟨u, hu2, rfl⟩
        have husrc : u ∈ cfg.sources := (hmem2 u).mp hu2
        have hfsval := hBfsL (objPathOf cfg2 u)
          (Ne.symm (happ u husrc).1)
          (Ne.symm (link_hash_path_ne_objPath cfg2 cfg2 u))
        have hm1 : FS.mtime
            (((runAll env cfg2 fs0 t0 order1).fs.write (app_path cfg2)
                ⟨(runAll env cfg2 fs0 t0 order1).time, FileData.exe⟩).write
              (link_hash_path cfg2)
              ⟨(runAll env cfg2 fs0 t0 order1).time,
                FileData.text (_calc_link_hash h ([cfg2.compiler]
                  ++ (runAll env cfg2 fs0 t0 order1).results.map (fun x => x.obj_path)
                  ++ cfg2.libs ++ ["-o", app_path cfg2]))⟩) (objPathOf cfg2 u)
            = (runAll env cfg2 fs0 t0 order1).fs.mtime (objPathOf cfg2 u) := by
          unfold FS.mtime
          rw [hfsval]
        have hma : FS.mtime
            (((runAll env cfg2 fs0 t0 order1).fs.write (app_path cfg2)
                ⟨(runAll env cfg2 fs0 t0 order1).time, FileData.exe⟩).write
              (link_hash_path cfg2)
              ⟨(runAll env cfg2 fs0 t0 order1).time,
                FileData.text (_calc_link_hash h ([cfg2.compiler]
                  ++ (runAll env cfg2 fs0 t0 order1).results.map (fun x => x.obj_path)
                  ++ cfg2.libs ++ ["-o", app_path cfg2]))⟩) (app_path cfg2)
            = (runAll env cfg2 fs0 t0 order1).time := by
          unfold FS.mtime
          rw [happv]
        rw [hm1, hma]
        exact G2 u husrc
    have hb2 := build_all_skip h env cfg verbose bt _
      ((runAll env cfg2 fs0 t0 order1).time + 1) order2 hfresh2 hrel2
    refine ⟨by rw [hb1], ?_, ?_, ?_, ?_⟩
    · rw [hb1]
      rw [hb2]
    · rw [hb1]
      rw [hb2]
    · rw [hb1]
      rw [hb2]
      intro s hs
      rcases List.mem_append.mp hs with hs1 | hs1
      · rcases List.mem_map.mp hs1 with ⟨u, _, he⟩
        exact Event.noConfusion he
      · exact Event.noConfusion (List.mem_singleton.mp hs1)
    · rw [hb1]
      rw [hb2]
      intro hs
      rcases List.mem_append.mp hs with hs1 | hs1
      · rcases List.mem_map.mp hs1 with ⟨u, _, he⟩
        exact Event.noConfusion he
      · exact Event.noConfusion (List.mem_singleton.mp hs1)
  · -- the first run skips the link step as well
    have hrelf := bool_ne_true hrel1
    have hb1 := build_relink_false_eq h env cfg verbose bt fs0 t0 order1 hall1 hrelf
    obtain ⟨hexapp, hstrip, hreadne, hmtles⟩ :=
      need_relink_false_elim h cfg2 (runAll env cfg2 fs0 t0 order1).fs _ _ hrelf
    have hfresh2 : ∀ s ∈ order2,
        need_recompile (runAll env cfg2 fs0 t0 order1).fs
          (objPathOf cfg2 s) (depPathOf cfg2 s) = false :=
      fun s hs => G1 _ (fun q _ _ => rfl) s ((hmem2 s).mp hs)
    have hrel2 : need_relink h cfg2 (runAll env cfg2 fs0 t0 order1).fs
        (order2.map (fun s => objPathOf cfg2 s))
        ([cfg2.compiler] ++ order2.map (fun s => objPathOf cfg2 s) ++ cfg2.libs
          ++ ["-o", app_path cfg2]) = false := by
      apply bool_ne_true
      rw [need_relink_iff_aux]
      push_neg
      refine ⟨?_, ?_, ?_, ?_⟩
      · intro he
        rw [hexapp] at he
        exact absurd he (by decide)
      · exact hreadne
      · intro s0 hs0
        rw [hstrip s0 hs0]
        exact hhashefq
      · intro o ho
        rcases List.mem_map.mp ho with ⟨u, hu2, rfl⟩
        apply hmtles
        rw [hobjs1]
        exact List.mem_map.mpr ⟨u, (hmem1 u).mpr ((hmem2 u).mp hu2), rfl⟩
    have hb2 := build_all_skip h env cfg verbose bt
      (runAll env cfg2 fs0 t0 order1).fs (runAll env cfg2 fs0 t0 order1).time
      order2 hfresh2 hrel2
    refine ⟨by rw [hb1], ?_, ?_, ?_, ?_⟩
    · rw [hb1]
      rw [hb2]
    · rw [hb1]
      rw [hb2]
    · rw [hb1]
      rw [hb2]
      intro s hs
      rcases List.mem_append.mp hs with hs1 | hs1
      · rcases List.mem_map.mp hs1 with ⟨u, _, he⟩
        exact Event.noConfusion he
      · exact Event.noConfusion (List.mem_singleton.mp hs1)
    · rw [hb1]
      rw [hb2]
      intro hs
      rcases List.mem_append.mp hs with hs1 | hs1
      · rcases List.mem_map.mp hs1 with ⟨u, _, he⟩
        exact Event.noConfusion he
      · exact Event.noConfusion (List.mem_singleton.mp hs1)

theorem build_idempotent_witness :
    (["m.c"].Perm sampleCfg.sources) ∧
    (build stubF idemEnv sampleCfg idemFs 3 false false BuildType.debug ["m.c"]).ok
      = true ∧
    (build stubF idemEnv sampleCfg
      (build stubF idemEnv sampleCfg idemFs 3 false false BuildType.debug ["m.c"]).fs
      (build stubF idemEnv sampleCfg idemFs 3 false false BuildType.debug ["m.c"]).time
      false false BuildType.debug ["m.c"]).events
      = ["m.c"].map Event.skipped ++ [Event.linkSkipped] := by
  have hmain := build_idempotent stubF idemEnv sampleCfg idemFs 3 false BuildType.debug
    ["m.c"] ["m.c"] (by decide) (by decide) (by decide) rfl
    (by intro x; show pyStrip "f" = "f"; decide)
    (by decide) (by decide) (by decide) (by decide) (by decide) (by decide) (by decide)
  exact ⟨by decide, hmain.1, hmain.2.2.1⟩

theorem build_db_complete_witness :
    (["m.c"].Perm sampleCfg.sources) ∧
    (build hashStub idemEnv sampleCfg FS.empty 0 true false BuildType.debug ["m.c"]).ok
      = true ∧
    ∃ mt entries,
      (build hashStub idemEnv sampleCfg FS.empty 0 true false BuildType.debug ["m.c"]).fs
          "compile_commands.json" = some ⟨mt, FileData.db entries⟩ ∧
      (entries.map (fun e => e.file)).Perm sampleCfg.sources ∧
      ∀ e ∈ entries, e.directory = sampleCfg.root_dir := by
  refine ⟨by decide, by decide, ?_⟩
  exact build_db_complete hashStub idemEnv sampleCfg FS.empty 0 false BuildType.debug
    ["m.c"] (by decide) (by decide)

end Smk

